import Mathlib

/-!
# Verification of `json_CSV_converter.py`

A shallow embedding of the converter's core logic — the import-side
normalizer built around `csv.DictReader` plus the boolean coercion loop,
and the export-side shaper of `export_csv_data_to_disk` — together with
theorems settling the specification's claims about them.

Conventions: Python `None` is modelled explicitly; fallible code returns
`Except PyErr`; file and text-level plumbing (dialect sniffing, quoting,
the byte stream) is external to the core and is modelled at the level of
token rows, the interface at which `csv.DictReader` and `csv.writer`
exchange data.  Case folding uses `pyLower` below, which agrees with
Python's `str.lower` on the ASCII inputs the converter manipulates.
-/

/-- Python exceptions the embedded code can raise. -/
inductive PyErr
  | typeError
  | attributeError
  | indexError
deriving DecidableEq

/-- A cell value as it appears in a record on the import path: a string
cell from the reader, Python `None` (the reader's `restval` fill for short
rows, and also `str2bool`'s fall-through result), the list of extra values
stored under the reader's rest key for long rows, or a `bool` produced by
`str2bool`. -/
inductive CVal
  | cstr (s : String)
  | cnone
  | clist (xs : List String)
  | cbool (b : Bool)
deriving DecidableEq

/-- One record: the ordered key-to-value mapping `csv.DictReader` builds
for a row.  Keys are `some fieldname` for header fields and `none` for the
reader's rest key (Python `None`), which collects extra values.  An
association list is faithful to a Python dict whenever the fieldnames are
pairwise distinct. -/
abbrev CRecord := List (Option String × CVal)

/-- Python's `str.lower` on the ASCII text the converter manipulates,
implemented structurally over the character list so that the kernel can
evaluate it (Lean's own `String.toLower` is defined by well-founded
recursion and does not reduce). -/
def pyLower (s : String) : String := ⟨s.data.map Char.toLower⟩

/-- Model of `str2bool` (source lines 12–31): returns `True`/`False` when the
lowercased argument is `"true"`/`"false"` and otherwise falls off the end
of the function, returning Python `None` despite the declared `-> bool`
annotation.  `Option Bool` with `none` models the fall-through. -/
def str2bool (s : String) : Option Bool :=
  if pyLower s = "true" then some true
  else if pyLower s = "false" then some false
  else none

/-- The value a `str2bool` result stores back into a record: a genuine
boolean, or Python `None` on fall-through. -/
def str2boolResult : Option Bool → CVal
  | some b => .cbool b
  | none => .cnone

/-- One step of the boolean-coercion loop of `import_csv_from_disk`
(source lines 166–171): `if not isinstance(v, list) and v.lower() in
['true', 'false']: record[k] = str2bool(v)`.  A list short-circuits the
guard and passes through; a string is tested and possibly replaced by
`str2bool`'s result; calling `.lower()` on Python `None` (the short-row
fill value) or on a `bool` raises `AttributeError`. -/
def normalizeValue : CVal → Except PyErr CVal
  | .clist xs => .ok (.clist xs)
  | .cstr s =>
      if pyLower s = "true" ∨ pyLower s = "false" then
        .ok (str2boolResult (str2bool s))
      else .ok (.cstr s)
  | .cnone => .error .attributeError
  | .cbool _ => .error .attributeError

/-- The coercion loop over one record: every value is rewritten in place
(keys and order unchanged); the first `AttributeError` aborts the call. -/
def normalizeRecord (r : CRecord) : Except PyErr CRecord :=
  r.mapM (fun kv => do
    let v ← normalizeValue kv.2
    pure (kv.1, v))

/-- Model of `csv.DictReader`'s conversion of one raw token row into a record: the
fieldnames are zipped with the row's values; missing trailing fields are
filled with the default `restval`, Python `None`; extra values are
collected into a list stored under the rest key `None`. -/
def dictReaderRow (fns : List String) (row : List String) : CRecord :=
  (fns.zip row).map (fun kv => (some kv.1, CVal.cstr kv.2))
    ++ (fns.drop row.length).map (fun k => (some k, CVal.cnone))
    ++ (if fns.length < row.length then [(none, CVal.clist (row.drop fns.length))] else [])

/-- Model of `csv.DictReader` over a whole parsed file: with `fieldnames=None` the
first row supplies the fieldnames; blank rows (empty token lists) are
skipped. -/
def dictReader (headers : Option (List String)) (rs : List (List String)) :
    List CRecord :=
  match headers with
  | some fns => (rs.filter (fun r => !r.isEmpty)).map (dictReaderRow fns)
  | none =>
      match rs with
      | [] => []
      | fns :: rest => (rest.filter (fun r => !r.isEmpty)).map (dictReaderRow fns)

/-- The outcome of the tabular reading stage of `import_csv_from_disk`
(source lines 145–164): the zero-byte check, the `csv.Sniffer` call and
`list(csv.DictReader(...))` all run inside `try/except`.  `empty` is a
zero-byte file and `malformed` a file on which sniffing or parsing raised
(both print a message and leave `data = None`); `rows rs` is a successful
parse into raw token rows. -/
inductive CsvParse
  | empty
  | malformed
  | rows (rs : List (List String))

/-- Result shape of `import_csv_from_disk`: lines 173–174 collapse a
one-record table to the bare record, so the shape depends on the data. -/
inductive ImportResult
  | single (r : CRecord)
  | table (rs : List CRecord)
deriving DecidableEq

/-- Discriminator for the singleton collapse. -/
def ImportResult.isSingle : ImportResult → Bool
  | .single _ => true
  | .table _ => false

/-- Model of `import_csv_from_disk` (source lines 112–176).  After the reading
stage, `data` is `None` on `empty`/`malformed`; the boolean-coercion loop
runs only under `if data is not None`; but the final `if len(data)==1` of
line 173 is unguarded, so `len(None)` raises `TypeError` whenever the
reading stage produced no data. -/
def import_csv_from_disk (p : CsvParse)
    (headers : Option (List String) := none) : Except PyErr ImportResult :=
  let data : Option (List CRecord) :=
    match p with
    | .empty => none
    | .malformed => none
    | .rows rs => some (dictReader headers rs)
  match data with
  | none => .error .typeError
  | some recs => do
      let recs ← recs.mapM normalizeRecord
      match recs with
      | [r] => .ok (.single r)
      | _ => .ok (.table recs)

/-- A scalar (non-container) Python value on the export path. -/
inductive Cell
  | str (s : String)
  | bool (b : Bool)
deriving DecidableEq

/-- A value of the export input: a scalar, or a one-level nested mapping
of scalars.  Deeper nesting is scoped out by the specification ("does not
support deeply nested (>1 level) JSON structures"). -/
inductive PyV
  | cell (c : Cell)
  | dict (kvs : List (String × Cell))
deriving DecidableEq

/-- The export input: a mapping (possibly mixing nested and scalar
values) or a sequence of flat mappings. -/
inductive ExportData
  | dict (kvs : List (String × PyV))
  | list (rows : List (List (String × Cell)))
deriving DecidableEq

/-- A fieldname as `csv.DictWriter` receives it: normally a string, but
the flat-mapping branch of `export_csv_data_to_disk` installs the first
*value* — an arbitrary object — as the second fieldname. -/
inductive FName
  | s (x : String)
  | c (x : Cell)
deriving DecidableEq

/-- Python `str` of a scalar. -/
def cellText : Cell → String
  | .str s => s
  | .bool true => "True"
  | .bool false => "False"

/-- Python `repr` of a scalar as it appears inside a rendered dict
(quote escaping inside the string itself is not modelled; no claim
depends on it). -/
def cellRepr : Cell → String
  | .str s => "'" ++ s ++ "'"
  | .bool b => cellText (.bool b)

/-- Python `str` of an export value: scalars render plainly, a dict
renders as its `repr`. -/
def pyText : PyV → String
  | .cell c => cellText c
  | .dict kvs =>
      "\x7b" ++ String.intercalate ", "
        (kvs.map (fun p => cellRepr (.str p.1) ++ ": " ++ cellRepr p.2)) ++ "\x7d"

/-- Python `str` of a fieldname, as `writeheader` renders it. -/
def fnameText : FName → String
  | .s x => x
  | .c c => cellText c

/-- The Python value a fieldname stands for: Python compares dict keys
and fieldnames by value equality, under which the string fieldname
`FName.s x` and the string-valued object fieldname `FName.c (.str x)`
are the same key (while a string never equals a boolean). -/
def fnameVal : FName → Cell
  | .s x => .str x
  | .c c => c

/-- Field lookup in a row mapping, as `rowdict.get(key, restval)` does:
keys compare by Python value equality. -/
def lookupF : List (FName × PyV) → FName → Option PyV
  | [], _ => none
  | (k, v) :: rest, f =>
      if fnameVal k = fnameVal f then some v else lookupF rest f

/-- Insertion `d[k] = v` into an ordered Python dict: an entry whose key
is value-equal to `k` is overwritten in place (the original key object
and position are kept), otherwise the new pair is appended.  A dict
literal is a sequence of such insertions into the empty dict, so
`\x7bh0: k, h1: v\x7d` collapses to one entry when `h0 == h1`. -/
def dictInsert : List (FName × PyV) → FName → PyV → List (FName × PyV)
  | [], k, v => [(k, v)]
  | (k0, v0) :: rest, k, v =>
      if fnameVal k0 = fnameVal k then (k0, v) :: rest
      else (k0, v0) :: dictInsert rest k v

/-- The clamping of lines 259–260: `if limit <= 3: limit = 4`. -/
def clampedLimit (limit : Int) : Int := if limit ≤ 3 then 4 else limit

/-- Model of `enforce_excel_cell_string_limit` (source lines 252–267): clamp the
limit up to 4, then either truncate to `limit-3` characters plus the
three-character ellipsis marker or return the string unchanged. -/
def enforce_excel_cell_string_limit (long_string : String) (limit : Int) :
    String :=
  let limit := clampedLimit limit
  if (long_string.length : Int) > limit then
    long_string.take (limit - 3).toNat ++ "..."
  else long_string

/-- The trim pass of lines 366–369: every value of the row is replaced in
place by `enforce_excel_cell_string_limit(str(val), 32750)`. -/
def trimRecord (r : List (FName × PyV)) : List (FName × PyV) :=
  r.map (fun p =>
    (p.1, PyV.cell (.str (enforce_excel_cell_string_limit (pyText p.2) 32750))))

/-- One row as `csv.DictWriter.writerow` emits it (`restval=''`,
`extrasaction='ignore'`): each fieldname is looked up in the row mapping,
a missing field renders as the empty string, keys outside the fieldnames
are silently dropped. -/
def dictWriterRow (fns : List FName) (r : List (FName × PyV)) : List String :=
  fns.map (fun f =>
    match lookupF r f with
    | some v => pyText v
    | none => "")

/-- An element of the shaped collection handed to the writing loop: a row
mapping, or a bare non-mapping object (a scalar left in a mixed dict, or
a key produced by iterating a dict), on which `.items()`/`.get` raise
`AttributeError`. -/
inductive WItem
  | row (r : List (FName × PyV))
  | obj (c : Cell)

/-- The writing loop of lines 365–370: optional per-row trim pass, then
`writerow`; a non-mapping item raises `AttributeError` (from `.items()`
when trimming, from `.get` otherwise). -/
def writePhase (fns : List FName) (items : List WItem) (trim : Bool) :
    Except PyErr (List (List String)) :=
  items.mapM (fun it =>
    match it with
    | .obj _ => .error .attributeError
    | .row r => .ok (dictWriterRow fns (if trim then trimRecord r else r)))

/-- The token rows of the written file: the header row first, then the
shaped rows. -/
structure CsvOut where
  header : List String
  rows : List (List String)
deriving DecidableEq

/-- Model of `export_csv_data_to_disk` (source lines 270–370), down to
the token rows handed to `csv.writer`.  `ok none` is the
"Nothing to export." early return (line 324, no file written); the
deep copy of line 330 is the identity at the level of values (the heap
model below settles the mutation claim); with `headers=None` the shape
dispatch of lines 332–357 derives the fieldnames and the shaped
collection; `ok (some out)` carries the header row and data rows. -/
def export_csv_data_to_disk (data : Option ExportData)
    (headers : Option (List FName) := none)
    (trim_long_strings : Bool := false) : Except PyErr (Option CsvOut) :=
  match data with
  | none => .ok none
  | some d =>
    if (match d with | .dict kvs => kvs.isEmpty | .list rs => rs.isEmpty) then
      .ok none
    else
      let shaped : List FName × List WItem :=
        match headers with
        | some fns =>
            (fns,
             match d with
             | .dict kvs => kvs.map (fun p => WItem.obj (Cell.str p.1))
             | .list rs =>
                 rs.map (fun r =>
                   WItem.row (r.map (fun p => (FName.s p.1, PyV.cell p.2)))))
        | none =>
            match d with
            | .dict kvs =>
                match kvs with
                | [] => ([], [])
                | (k0, v0) :: rest =>
                  match v0 with
                  | .dict nkvs =>
                      (nkvs.map (fun p => FName.s p.1),
                       ((k0, PyV.dict nkvs) :: rest).map (fun p =>
                         match p.2 with
                         | .dict n =>
                             WItem.row (n.map (fun q =>
                               (FName.s q.1, PyV.cell q.2)))
                         | .cell c => WItem.obj c))
                  | .cell c0 =>
                      ([FName.s k0, FName.c c0],
                       rest.map (fun p =>
                         WItem.row (dictInsert
                           (dictInsert [] (FName.s k0)
                             (PyV.cell (Cell.str p.1)))
                           (FName.c c0) p.2)))
            | .list rs =>
                (match rs with
                 | [] => []
                 | r0 :: _ => r0.map (fun p => FName.s p.1),
                 rs.map (fun r =>
                   WItem.row (r.map (fun p => (FName.s p.1, PyV.cell p.2)))))
      match writePhase shaped.1 shaped.2 trim_long_strings with
      | .error e => .error e
      | .ok rows => .ok (some ⟨shaped.1.map fnameText, rows⟩)

/-- The token rows of the file an export call wrote: the header row, then
the data rows; nothing when no file was written. -/
def exportedLines : Except PyErr (Option CsvOut) → List (List String)
  | .ok (some o) => o.header :: o.rows
  | _ => []

theorem mapM_congr_ok {ε α β : Type} (l : List α) (f : α → Except ε β)
    (g : α → β) (h : ∀ a ∈ l, f a = .ok (g a)) :
    l.mapM f = .ok (l.map g) := by
  induction l with
  | nil => rfl
  | cons a l ih =>
      rw [List.mapM_cons, h a (List.mem_cons_self a l),
        ih (fun x hx => h x (List.mem_cons_of_mem a hx))]
      rfl

theorem writePhase_rows {α : Type} (fns : List FName) (l : List α)
    (g : α → List (FName × PyV)) (trim : Bool) :
    writePhase fns (l.map (fun a => WItem.row (g a))) trim =
      .ok (l.map (fun a =>
        dictWriterRow fns (if trim then trimRecord (g a) else g a))) := by
  unfold writePhase
  rw [mapM_congr_ok (l.map (fun a => WItem.row (g a))) _
      (fun it => match it with
        | WItem.row r => dictWriterRow fns (if trim then trimRecord r else r)
        | WItem.obj _ => []) (fun it hit => by
          obtain ⟨a, _, rfl⟩ := List.mem_map.1 hit
          rfl)]
  rw [List.map_map]
  rfl

/-- C1: the claim says an empty or malformed CSV import is a
recoverable-null outcome that never raises; on the code, the reading stage
indeed leaves `data = None` with a printed diagnostic, but the unguarded
`if len(data)==1` of line 173 then evaluates `len(None)` and raises
`TypeError`, so both error paths abort with an exception instead of
returning no data. -/
theorem C1_empty_or_malformed_import_raises_typeError
    (headers : Option (List String)) :
    import_csv_from_disk .empty headers = .error .typeError ∧
    import_csv_from_disk .malformed headers = .error .typeError :=
  ⟨rfl, rfl⟩

/-- C2: the claim says short rows are padded with the null sentinel and
that normalization passes the sentinel through unchanged; on the code,
`csv.DictReader` does pad short rows with Python `None`, but the
boolean-coercion loop then calls `None.lower()` and raises
`AttributeError`, so an import containing a short row aborts instead of
returning the padded record. -/
theorem C2_short_row_sentinel_crashes_normalization :
    dictReaderRow ["a", "b"] ["x"] =
      [(some "a", CVal.cstr "x"), (some "b", CVal.cnone)] ∧
    import_csv_from_disk (.rows [["a", "b"], ["x"]]) none =
      .error .attributeError :=
  ⟨rfl, rfl⟩

/-- C3, counterexample: importing a CSV whose header row is `a` and whose
data row is `x,y,z` yields a record in which the extra values `y`, `z` do
appear — as a list stored under the reader's rest key `None` — refuting
the claim that extras are dropped and appear nowhere in the mapping. -/
theorem C3_counterexample_extras_survive_under_restkey :
    import_csv_from_disk (.rows [["a"], ["x", "y", "z"]]) none =
      .ok (.single [(some "a", .cstr "x"), (none, .clist ["y", "z"])]) :=
  rfl

/-- C3, amended: extra values of a long row are not assigned to any header
field; they are collected into a single list stored under the rest key
`None` of the record mapping.  Formally, any list-valued entry of a
reader-produced record sits under the key `none` and holds exactly the
values beyond the header width. -/
theorem C3_extras_only_under_restkey (fns row : List String)
    (k : Option String) (v : CVal) (hmem : (k, v) ∈ dictReaderRow fns row)
    (xs : List String) (hv : v = CVal.clist xs) :
    k = none ∧ xs = row.drop fns.length := by
  subst hv
  simp only [dictReaderRow, List.mem_append, List.mem_map] at hmem
  rcases hmem with (⟨kv, _, h⟩ | ⟨fn, _, h⟩) | h
  · exact absurd (congrArg Prod.snd h) (by simp)
  · exact absurd (congrArg Prod.snd h) (by simp)
  · rcases Decidable.em (fns.length < row.length) with hlt | hlt
    · simp only [if_pos hlt, List.mem_singleton, Prod.mk.injEq] at h
      exact ⟨h.1, CVal.clist.inj h.2⟩
    · simp [if_neg hlt] at h

/-- C3, witness for the amended theorem at a concrete long row. -/
theorem C3_extras_only_under_restkey_witness :
    (none, CVal.clist ["y", "z"]) ∈ dictReaderRow ["a"] ["x", "y", "z"] ∧
    ((none : Option String) = none ∧ ["y", "z"] = ["x", "y", "z"].drop 1) :=
  ⟨by decide,
   C3_extras_only_under_restkey ["a"] ["x", "y", "z"] none
     (CVal.clist ["y", "z"]) (by decide) ["y", "z"] rfl⟩

/-- C5: a textual cell whose lowercased form is exactly `"true"` or
`"false"` is replaced by the corresponding boolean by the coercion step of
`import_csv_from_disk`; every other textual cell passes through
unchanged. -/
theorem C5_boolean_text_cells_normalize (s : String) :
    normalizeValue (.cstr s) =
      .ok (if pyLower s = "true" then .cbool true
           else if pyLower s = "false" then .cbool false
           else .cstr s) := by
  by_cases h1 : pyLower s = "true" <;> by_cases h2 : pyLower s = "false" <;>
    simp [normalizeValue, str2boolResult, str2bool, h1, h2]

/-- C6, counterexample: a one-row CSV imported with no headers supplied
does not collapse to a single mapping — `csv.DictReader` consumes the only
row as the fieldnames, leaving zero records, and the import returns an
empty table. -/
theorem C6_counterexample_one_row_no_headers :
    import_csv_from_disk (.rows [["1", "true"]]) none = .ok (.table []) ∧
    ImportResult.isSingle (.table []) = false :=
  ⟨rfl, rfl⟩

/-- C6, amended: whenever the import produces a table of exactly one
record, `import_csv_from_disk` returns that record directly rather than a
one-element list; in particular a one-row CSV collapses to a single
mapping when headers are supplied (with no headers supplied the single row
is consumed as fieldnames and an empty table results). -/
theorem C6_singleton_table_collapses (rs : List (List String))
    (headers : Option (List String)) (rec : CRecord)
    (h : (dictReader headers rs).mapM normalizeRecord = .ok [rec]) :
    import_csv_from_disk (.rows rs) headers = .ok (.single rec) := by
  have hred : import_csv_from_disk (.rows rs) headers =
      Except.bind ((dictReader headers rs).mapM normalizeRecord)
        (fun recs =>
          match recs with
          | [r] => Except.ok (ImportResult.single r)
          | _ => Except.ok (ImportResult.table recs)) := rfl
  rw [hred, h]
  rfl

/-- C6, witness: a one-row CSV with headers supplied collapses to a single
mapping. -/
theorem C6_singleton_table_collapses_witness :
    (dictReader (some ["a", "b"]) [["1", "x"]]).mapM normalizeRecord =
      .ok [[(some "a", CVal.cstr "1"), (some "b", CVal.cstr "x")]] ∧
    import_csv_from_disk (.rows [["1", "x"]]) (some ["a", "b"]) =
      .ok (.single [(some "a", CVal.cstr "1"), (some "b", CVal.cstr "x")]) :=
  ⟨rfl,
   C6_singleton_table_collapses [["1", "x"]] (some ["a", "b"])
     [(some "a", CVal.cstr "1"), (some "b", CVal.cstr "x")] rfl⟩

/-- C10: on any string whose lowercased form is neither `"true"` nor
`"false"`, `str2bool` falls through and returns Python `None` rather than
a boolean; under the import normalizer's call-site guard — which only
invokes `str2bool` on values whose lowercase form is `"true"` or
`"false"` — the fall-through is unreachable, and the stored value is a
genuine boolean. -/
theorem C10_str2bool_fallthrough_unreachable_on_import (s : String) :
    (pyLower s = "true" →
      str2bool s = some true ∧ normalizeValue (.cstr s) = .ok (.cbool true)) ∧
    (pyLower s = "false" →
      str2bool s = some false ∧
        normalizeValue (.cstr s) = .ok (.cbool false)) ∧
    (pyLower s ≠ "true" → pyLower s ≠ "false" → str2bool s = none) := by
  refine ⟨fun h => ?_, fun h => ?_, fun h1 h2 => ?_⟩
  · constructor
    · simp [str2bool, h]
    · simp [normalizeValue, str2boolResult, str2bool, h]
  · constructor
    · have : ¬ pyLower s = "true" := by simp [h]
      simp [str2bool, h, this]
    · have : ¬ pyLower s = "true" := by simp [h]
      simp [normalizeValue, str2boolResult, str2bool, h, this]
  · simp [str2bool, h1, h2]

/-- C10, witness at concrete guarded and unguarded inputs. -/
theorem C10_str2bool_fallthrough_witness :
    (str2bool "TRUE" = some true ∧
      normalizeValue (.cstr "TRUE") = .ok (.cbool true)) ∧
    (str2bool "fAlSe" = some false ∧
      normalizeValue (.cstr "fAlSe") = .ok (.cbool false)) ∧
    str2bool "maybe" = none :=
  ⟨(C10_str2bool_fallthrough_unreachable_on_import "TRUE").1 (by decide),
   (C10_str2bool_fallthrough_unreachable_on_import "fAlSe").2.1 (by decide),
   (C10_str2bool_fallthrough_unreachable_on_import "maybe").2.2 (by decide)
     (by decide)⟩

/-- C7, counterexample: when the flat mapping's first value equals its
first key (as Python values), both header names are that one value, the
row dict `\x7bh: key, h: value\x7d` collapses to its last entry, and the
written data row repeats the pair's value — exporting
`\x7b"a": "a", "x": "y"\x7d` writes the header row `["a", "a"]` and the
data row `["y", "y"]`, not the claimed `["x", "y"]`. -/
theorem C7_counterexample_first_pair_collision :
    export_csv_data_to_disk
        (some (.dict [("a", .cell (.str "a")), ("x", .cell (.str "y"))]))
        none false =
      .ok (some ⟨["a", "a"], [["y", "y"]]⟩) := rfl

/-- C7, amended: exporting a non-empty flat mapping (scalar values) with
no headers supplied, *whose first value differs from its first key as a
Python value*, treats the first key/value pair as the two header names
`[first_key, first_value]`, and each subsequent pair becomes exactly one
row holding the pair's key under the first header and its value under
the second — e.g. `\x7b"color": "red", "size": "large"\x7d` yields the
header row `["color", "red"]` and the single data row
`["size", "large"]`.  (When the first value equals the first key the two
header columns denote one dict slot and each written row repeats the
pair's value, see the counterexample.) -/
theorem C7_flat_mapping_vertical_table (k0 : String) (c0 : Cell)
    (rest : List (String × Cell)) (hne : Cell.str k0 ≠ c0) :
    export_csv_data_to_disk
        (some (.dict ((k0, .cell c0) ::
          rest.map (fun p => (p.1, PyV.cell p.2))))) none false =
      .ok (some ⟨[k0, cellText c0],
        rest.map (fun p => [p.1, cellText p.2])⟩) := by
  have hne' : fnameVal (FName.s k0) ≠ fnameVal (FName.c c0) := hne
  have hred : export_csv_data_to_disk
      (some (.dict ((k0, .cell c0) ::
        rest.map (fun p => (p.1, PyV.cell p.2))))) none false =
      match writePhase [FName.s k0, FName.c c0]
          ((rest.map (fun p => (p.1, PyV.cell p.2))).map (fun p =>
            WItem.row (dictInsert
              (dictInsert [] (FName.s k0) (PyV.cell (Cell.str p.1)))
              (FName.c c0) p.2))) false with
      | .error e => .error e
      | .ok rows =>
          .ok (some ⟨[fnameText (FName.s k0), fnameText (FName.c c0)],
            rows⟩) := rfl
  rw [hred, writePhase_rows, List.map_map]
  have hrows : rest.map ((fun p => dictWriterRow [FName.s k0, FName.c c0]
        (if false then trimRecord (dictInsert
          (dictInsert [] (FName.s k0) (PyV.cell (Cell.str p.1)))
          (FName.c c0) p.2) else dictInsert
          (dictInsert [] (FName.s k0) (PyV.cell (Cell.str p.1)))
          (FName.c c0) p.2)) ∘ (fun p => (p.1, PyV.cell p.2))) =
      rest.map (fun p => [p.1, cellText p.2]) := by
    apply List.map_congr_left
    intro p _
    simp [dictInsert, dictWriterRow, lookupF, pyText, cellText, hne']
  rw [hrows]
  rfl

/-- C7, witness for the amended theorem at the specification's example
mapping, whose first key and first value differ. -/
theorem C7_flat_mapping_vertical_table_witness :
    Cell.str "color" ≠ Cell.str "red" ∧
    export_csv_data_to_disk
        (some (.dict [("color", .cell (.str "red")),
          ("size", .cell (.str "large"))])) none false =
      .ok (some ⟨["color", "red"], [["size", "large"]]⟩) :=
  ⟨by decide,
   C7_flat_mapping_vertical_table "color" (.str "red")
     [("size", .str "large")] (by decide)⟩

/-- C8: `enforce_excel_cell_string_limit` first clamps any limit ≤ 3 up
to 4; a string longer than the clamped limit is replaced by its first
`limit-3` characters followed by the three-character ellipsis marker
(so the result ends in the marker and its total length stays within the
clamped limit); any other string is returned unchanged; a limit of 2
behaves exactly as a limit of 4. -/
theorem C8_enforce_limit_truncates (s : String) (limit : Int) :
    (limit ≤ 3 →
      enforce_excel_cell_string_limit s limit =
        enforce_excel_cell_string_limit s 4) ∧
    ((s.length : Int) > clampedLimit limit →
      enforce_excel_cell_string_limit s limit =
          s.take (clampedLimit limit - 3).toNat ++ "..." ∧
        ((enforce_excel_cell_string_limit s limit).length : Int) ≤
          clampedLimit limit) ∧
    ((s.length : Int) ≤ clampedLimit limit →
      enforce_excel_cell_string_limit s limit = s) := by
  have hL4 : 4 ≤ clampedLimit limit := by
    unfold clampedLimit; split <;> omega
  refine ⟨fun h => ?_, fun h => ⟨?_, ?_⟩, fun h => ?_⟩
  · have h4 : clampedLimit limit = clampedLimit 4 := by
      unfold clampedLimit; split <;> split <;> omega
    unfold enforce_excel_cell_string_limit
    rw [h4]
  · unfold enforce_excel_cell_string_limit
    rw [if_pos h]
  · unfold enforce_excel_cell_string_limit
    rw [if_pos h]
    set L := clampedLimit limit with hL
    have hn : (((L - 3).toNat : Int)) = L - 3 := Int.toNat_of_nonneg (by omega)
    have htk : (s.take (L - 3).toNat).length = min (L - 3).toNat s.length := by
      rw [String.take_eq]
      exact List.length_take _ _
    have hmin : min (L - 3).toNat s.length = (L - 3).toNat := by
      apply min_eq_left
      omega
    rw [String.length_append, htk, hmin]
    have h3 : (("..." : String).length : Int) = 3 := by decide
    push_cast
    omega
  · unfold enforce_excel_cell_string_limit
    rw [if_neg (by omega)]

/-- C8, witness: a 20-character value at limit 10 truncates to the first
7 characters plus the marker within the limit, and limit 2 behaves as
limit 4. -/
theorem C8_enforce_limit_truncates_witness :
    enforce_excel_cell_string_limit "abcdefghijklmnopqrst" 10 =
        "abcdefghijklmnopqrst".take (clampedLimit 10 - 3).toNat ++ "..." ∧
    ((enforce_excel_cell_string_limit "abcdefghijklmnopqrst" 10).length :
        Int) ≤ clampedLimit 10 ∧
    enforce_excel_cell_string_limit "hello" 2 =
      enforce_excel_cell_string_limit "hello" 4 :=
  ⟨((C8_enforce_limit_truncates "abcdefghijklmnopqrst" 10).2.1
      (by decide)).1,
   ((C8_enforce_limit_truncates "abcdefghijklmnopqrst" 10).2.1
      (by decide)).2,
   (C8_enforce_limit_truncates "hello" 2).1 (by decide)⟩

/-- The "modulo" clause of the round-trip claim: a boolean survives
through its text form, a string that spells a boolean (in any letter
case) comes back as the boolean, and every other scalar comes back as
its own text. -/
def boolRoundTrip : Cell → CVal
  | .str s =>
      if pyLower s = "true" then .cbool true
      else if pyLower s = "false" then .cbool false
      else .cstr s
  | .bool b => .cbool b

theorem normalizeValue_cellText (c : Cell) :
    normalizeValue (.cstr (cellText c)) = .ok (boolRoundTrip c) := by
  cases c with
  | str s =>
      by_cases h1 : pyLower s = "true" <;> by_cases h2 : pyLower s = "false" <;>
        simp [cellText, boolRoundTrip, normalizeValue, str2boolResult,
          str2bool, h1, h2]
  | bool b => cases b <;> rfl

theorem dictWriterRow_zip_self (ks : List FName) (vs : List PyV)
    (hnd : (ks.map fnameVal).Nodup) (hlen : ks.length = vs.length) :
    dictWriterRow ks (ks.zip vs) = vs.map pyText := by
  induction ks generalizing vs with
  | nil =>
      cases vs with
      | nil => rfl
      | cons v vs => simp at hlen
  | cons k ks ih =>
      cases vs with
      | nil => simp at hlen
      | cons v vs =>
          have hk : fnameVal k ∉ ks.map fnameVal :=
            (List.nodup_cons.1 hnd).1
          have hnd' : (ks.map fnameVal).Nodup := (List.nodup_cons.1 hnd).2
          have hlen' : ks.length = vs.length := by simpa using hlen
          show (fun f => match lookupF ((k, v) :: ks.zip vs) f with
              | some w => pyText w
              | none => "") k ::
            ks.map (fun f => match lookupF ((k, v) :: ks.zip vs) f with
              | some w => pyText w
              | none => "") = pyText v :: vs.map pyText
          have hhead : (fun f => match lookupF ((k, v) :: ks.zip vs) f with
              | some w => pyText w
              | none => "") k = pyText v := by
            simp [lookupF]
          have htail : ks.map (fun f =>
              match lookupF ((k, v) :: ks.zip vs) f with
              | some w => pyText w
              | none => "") = vs.map pyText := by
            rw [← ih vs hnd' hlen']
            apply List.map_congr_left
            intro f hf
            have hne : ¬ fnameVal k = fnameVal f :=
              fun h => hk (h ▸ List.mem_map_of_mem fnameVal hf)
            simp [dictWriterRow, lookupF, hne]
          rw [hhead, htail]

theorem export_list_shape (hs : List String) (tbl : List (List Cell))
    (hnd : hs.Nodup) (htb : tbl ≠ [])
    (hlen : ∀ r ∈ tbl, r.length = hs.length) :
    export_csv_data_to_disk
        (some (.list (tbl.map (fun r => hs.zip r)))) none false =
      .ok (some ⟨hs, tbl.map (fun r => r.map cellText)⟩) := by
  cases tbl with
  | nil => exact absurd rfl htb
  | cons t0 ttl =>
      have hfns : (hs.zip t0).map (fun p => FName.s p.1) = hs.map FName.s := by
        have h0 : t0.length = hs.length := hlen t0 (List.mem_cons_self t0 ttl)
        rw [show (fun p : String × Cell => FName.s p.1) =
            (FName.s ∘ Prod.fst) from rfl, ← List.map_map,
          List.map_fst_zip hs t0 (le_of_eq h0.symm)]
      have hred : export_csv_data_to_disk
          (some (.list ((t0 :: ttl).map (fun r => hs.zip r)))) none false =
          match writePhase ((hs.zip t0).map (fun p => FName.s p.1))
              (((t0 :: ttl).map (fun r => hs.zip r)).map (fun r =>
                WItem.row (r.map
                  (fun p => (FName.s p.1, PyV.cell p.2))))) false with
          | .error e => .error e
          | .ok rows =>
              .ok (some ⟨((hs.zip t0).map
                (fun p => FName.s p.1)).map fnameText, rows⟩) := rfl
      rw [hred, writePhase_rows, hfns]
      have hhdr : (hs.map FName.s).map fnameText = hs := by
        rw [List.map_map]
        exact List.map_id'' (fun x => rfl) hs
      have hrows : ((t0 :: ttl).map (fun r => hs.zip r)).map (fun r =>
          dictWriterRow (hs.map FName.s) (if false then
            trimRecord (r.map (fun p => (FName.s p.1, PyV.cell p.2)))
          else r.map (fun p => (FName.s p.1, PyV.cell p.2)))) =
          (t0 :: ttl).map (fun r => r.map cellText) := by
        rw [List.map_map]
        apply List.map_congr_left
        intro r hr
        have hr' : r.length = hs.length := hlen r hr
        show dictWriterRow (hs.map FName.s) (if false then
            trimRecord ((hs.zip r).map (fun p => (FName.s p.1, PyV.cell p.2)))
          else (hs.zip r).map (fun p => (FName.s p.1, PyV.cell p.2))) =
          r.map cellText
        have hzip : (hs.zip r).map (fun p => (FName.s p.1, PyV.cell p.2)) =
            (hs.map FName.s).zip (r.map PyV.cell) := by
          rw [List.zip_map]
          rfl
        have hmnd : ((hs.map FName.s).map fnameVal).Nodup := by
          rw [List.map_map]
          exact hnd.map (fun a b hab => Cell.str.inj hab)
        rw [if_neg (by simp), hzip,
          dictWriterRow_zip_self (hs.map FName.s) (r.map PyV.cell)
            hmnd (by simp [hr'])]
        rw [List.map_map]
        rfl
      rw [hrows, hhdr]

theorem mapM_map_congr_ok {ε α β γ : Type} (l : List α) (h : α → β)
    (f : β → Except ε γ) (g : α → γ)
    (hp : ∀ a ∈ l, f (h a) = .ok (g a)) :
    (l.map h).mapM f = .ok (l.map g) := by
  induction l with
  | nil => rfl
  | cons a l ih =>
      rw [List.map_cons, List.mapM_cons, hp a (List.mem_cons_self a l),
        ih (fun x hx => hp x (List.mem_cons_of_mem a hx))]
      rfl

/-- The importer result for a list of records: the singleton collapse of
lines 173–174 applied to an already-normalized record list. -/
def collapseResult (recs : List CRecord) : ImportResult :=
  match recs with
  | [r] => .single r
  | _ => .table recs

theorem import_uniform_table (hs : List String) (rows : List (List Cell))
    (hns : hs ≠ []) (hlen : ∀ r ∈ rows, r.length = hs.length) :
    import_csv_from_disk
        (.rows (hs :: rows.map (fun r => r.map cellText))) none =
      .ok (collapseResult (rows.map (fun r =>
        (hs.zip r).map (fun p => (some p.1, boolRoundTrip p.2))))) := by
  have hfilter : (rows.map (fun r => r.map cellText)).filter
      (fun r => !r.isEmpty) = rows.map (fun r => r.map cellText) := by
    rw [List.filter_eq_self]
    intro a ha
    obtain ⟨r, hr, rfl⟩ := List.mem_map.1 ha
    have h0 : (r.map cellText) ≠ [] := by
      have h1 : (r.map cellText).length = hs.length := by
        rw [List.length_map]
        exact hlen r hr
      intro hnil
      rw [hnil] at h1
      exact hns (List.length_eq_zero.1 h1.symm)
    cases hx : r.map cellText with
    | nil => exact absurd hx h0
    | cons c cs => rfl
  have hone : ∀ r ∈ rows,
      normalizeRecord (dictReaderRow hs (r.map cellText)) =
        .ok ((hs.zip r).map (fun p => (some p.1, boolRoundTrip p.2))) := by
    intro r hr
    have hrlen : r.length = hs.length := hlen r hr
    have hrow : dictReaderRow hs (r.map cellText) =
        (hs.zip r).map (fun p => (some p.1, CVal.cstr (cellText p.2))) := by
      unfold dictReaderRow
      rw [List.zip_map_right, List.map_map, List.length_map, hrlen,
        List.drop_length, List.map_nil, if_neg (lt_irrefl hs.length),
        List.append_nil, List.append_nil]
      rfl
    rw [hrow]
    unfold normalizeRecord
    exact mapM_map_congr_ok (hs.zip r) _ _ _ (fun p _ => by
      show Except.bind (normalizeValue (CVal.cstr (cellText p.2)))
          (fun v => pure (some p.1, v)) = _
      rw [normalizeValue_cellText]
      rfl)
  have hbind : ((rows.map (fun r => r.map cellText)).map
      (dictReaderRow hs)).mapM normalizeRecord =
      .ok (rows.map (fun r =>
        (hs.zip r).map (fun p => (some p.1, boolRoundTrip p.2)))) := by
    rw [List.map_map]
    exact mapM_map_congr_ok rows _ _ _ (fun r hr => hone r hr)
  have hred : import_csv_from_disk
      (.rows (hs :: rows.map (fun r => r.map cellText))) none =
      Except.bind ((((rows.map (fun r => r.map cellText)).filter
          (fun r => !r.isEmpty)).map (dictReaderRow hs)).mapM normalizeRecord)
        (fun recs => match recs with
          | [r] => Except.ok (ImportResult.single r)
          | _ => Except.ok (ImportResult.table recs)) := rfl
  rw [hred, hfilter, hbind]
  cases rows with
  | nil => rfl
  | cons r rtl =>
      cases rtl with
      | nil => rfl
      | cons r2 rtl2 => rfl

/-- C4: exporting a non-empty sequence of uniform mappings (all records
share the same non-empty, duplicate-free key list, values are scalars)
to tabular form and re-importing the written rows yields mappings equal
to the originals modulo boolean values round-tripping through their text
form (`boolRoundTrip`); with exactly one record the result additionally
arrives through the importer's singleton collapse.  Uniform records have
no missing fields, so the null-sentinel half of the "modulo" clause is
vacuous here (and a short row would in fact crash the import, see C2). -/
theorem C4_export_import_roundtrip (hs : List String) (tbl : List (List Cell))
    (hns : hs ≠ []) (hnd : hs.Nodup) (htb : tbl ≠ [])
    (hlen : ∀ r ∈ tbl, r.length = hs.length) :
    import_csv_from_disk (.rows (exportedLines (export_csv_data_to_disk
        (some (.list (tbl.map (fun r => hs.zip r)))) none false))) none =
      .ok (collapseResult (tbl.map (fun r =>
        (hs.zip r).map (fun p => (some p.1, boolRoundTrip p.2))))) := by
  rw [export_list_shape hs tbl hnd htb hlen]
  exact import_uniform_table hs tbl hns hlen

/-- C4, witness: a two-record table with a boolean, a boolean-spelling
string and plain strings round-trips as claimed. -/
theorem C4_export_import_roundtrip_witness :
    import_csv_from_disk (.rows (exportedLines (export_csv_data_to_disk
        (some (.list ([[Cell.str "x", Cell.bool true],
          [Cell.str "TRUE", Cell.str "y"]].map
            (fun r => ["a", "b"].zip r)))) none false))) none =
      .ok (.table [[(some "a", CVal.cstr "x"), (some "b", CVal.cbool true)],
        [(some "a", CVal.cbool true), (some "b", CVal.cstr "y")]]) :=
  C4_export_import_roundtrip ["a", "b"]
    [[Cell.str "x", Cell.bool true], [Cell.str "TRUE", Cell.str "y"]]
    (by decide) (by decide) (by decide) (by decide)

namespace Mut

/-!
A second view of `export_csv_data_to_disk`, for the one claim that value
semantics cannot express: the function mutates rows in place (the trim
pass of lines 366–369 does `item[key] = ...`), and only the
`copy.deepcopy(data)` of line 330 keeps that mutation away from the
caller's structure.  Containers therefore live in an explicit heap —
addresses index a list of objects, allocation appends — and the claim
becomes a frame property: every address that existed before the call
still holds the same object afterwards.
-/

/-- A heap value: an immutable scalar, Python `None`, or a reference to
a container object in the heap. -/
inductive HV
  | str (s : String)
  | bool (b : Bool)
  | none
  | ref (a : Nat)
deriving DecidableEq

/-- A mutable container: a dict (ordered key/value pairs; keys are
values) or a list. -/
inductive Obj
  | dict (kvs : List (HV × HV))
  | list (xs : List HV)
deriving DecidableEq

/-- The heap: objects indexed by address; allocation appends. -/
abbrev Heap := List Obj

mutual

/-- Model of `copy.deepcopy` on this object graph, with explicit fuel (every
recursive step spends one unit; the caller supplies enough for its
acyclic data).  Scalars are returned as they are; a reference allocates
a fresh object at the end of the heap whose parts were copied in turn.
CPython's deepcopy additionally memoizes shared subobjects; this copy
duplicates them instead — both schemes allocate only fresh addresses,
which is all the claim below depends on. -/
def deepcopy : Nat → Heap → HV → Option (Heap × HV)
  | _, h, .str s => some (h, .str s)
  | _, h, .bool b => some (h, .bool b)
  | _, h, .none => some (h, .none)
  | 0, _, .ref _ => Option.none
  | fuel+1, h, .ref a =>
    match h[a]? with
    | Option.none => Option.none
    | some (.dict kvs) =>
        match deepcopyPairs fuel h kvs with
        | Option.none => Option.none
        | some (h', kvs') => some (h' ++ [.dict kvs'], .ref h'.length)
    | some (.list xs) =>
        match deepcopyElems fuel h xs with
        | Option.none => Option.none
        | some (h', xs') => some (h' ++ [.list xs'], .ref h'.length)

/-- Deepcopy of a dict's pairs, threading the heap left to right. -/
def deepcopyPairs : Nat → Heap → List (HV × HV) → Option (Heap × List (HV × HV))
  | _, h, [] => some (h, [])
  | 0, _, _ :: _ => Option.none
  | fuel+1, h, kv :: rest =>
    match deepcopy fuel h kv.1 with
    | Option.none => Option.none
    | some (h1, k') =>
      match deepcopy fuel h1 kv.2 with
      | Option.none => Option.none
      | some (h2, v') =>
        match deepcopyPairs fuel h2 rest with
        | Option.none => Option.none
        | some (h3, rest') => some (h3, (k', v') :: rest')

/-- Deepcopy of a list's elements, threading the heap left to right. -/
def deepcopyElems : Nat → Heap → List HV → Option (Heap × List HV)
  | _, h, [] => some (h, [])
  | 0, _, _ :: _ => Option.none
  | fuel+1, h, x :: rest =>
    match deepcopy fuel h x with
    | Option.none => Option.none
    | some (h1, x') =>
      match deepcopyElems fuel h1 rest with
      | Option.none => Option.none
      | some (h2, rest') => some (h2, x' :: rest')

end

/-- Python's falsiness test `not data` on this object graph: `None`,
`False`, the empty string and empty containers are falsy. -/
def isFalsy (h : Heap) : HV → Bool
  | .none => true
  | .str s => s.isEmpty
  | .bool b => !b
  | .ref a =>
    match h[a]? with
    | some (.dict kvs) => kvs.isEmpty
    | some (.list xs) => xs.isEmpty
    | Option.none => false

/-- Python `str`/`repr` of a heap value (`asRepr` selects `repr`, used
inside rendered containers), with fuel for reference chasing.  Only the
fact that the trim pass stores *some* string matters to the claim
below. -/
def pyRender : Nat → Heap → Bool → HV → String
  | _, _, false, .str s => s
  | _, _, true, .str s => "'" ++ s ++ "'"
  | _, _, _, .bool true => "True"
  | _, _, _, .bool false => "False"
  | _, _, _, .none => "None"
  | 0, _, _, .ref _ => ""
  | fuel+1, h, _, .ref a =>
    match h[a]? with
    | some (.dict kvs) =>
        "\x7b" ++ String.intercalate ", " (kvs.map (fun kv =>
          pyRender fuel h true kv.1 ++ ": " ++ pyRender fuel h true kv.2)) ++ "\x7d"
    | some (.list xs) =>
        "[" ++ String.intercalate ", " (xs.map (pyRender fuel h true)) ++ "]"
    | Option.none => ""

/-- The trim pass over one dict object's pairs (lines 367–369): every
value is replaced by `enforce_excel_cell_string_limit(str(val), 32750)`. -/
def trimObjPairs (fuel : Nat) (h : Heap) (kvs : List (HV × HV)) :
    List (HV × HV) :=
  kvs.map (fun kv =>
    (kv.1, HV.str (enforce_excel_cell_string_limit
      (pyRender fuel h false kv.2) 32750)))

/-- Key lookup in a dict object, as `rowdict.get(key, restval)` does
(hash-equality is modelled by structural equality). -/
def lookupHV : List (HV × HV) → HV → Option HV
  | [], _ => Option.none
  | kv :: rest, k => if kv.1 = k then some kv.2 else lookupHV rest k

/-- One iteration of the writing loop (lines 365–370) on one item: a
dict object is optionally trimmed in place (a heap write at its
address), then written; any non-dict item raises `AttributeError`
(from `.items()` when trimming, from `.get` otherwise). -/
def writeItem (fuel : Nat) (fns : List HV) (trim : Bool) (h : Heap)
    (item : HV) : Except PyErr (Heap × List String) :=
  match item with
  | .ref a =>
    match h[a]? with
    | some (.dict kvs) =>
        let kvs' := if trim then trimObjPairs fuel h kvs else kvs
        let h' := if trim then h.set a (.dict kvs') else h
        .ok (h', fns.map (fun f =>
          match lookupHV kvs' f with
          | some v => pyRender fuel h' false v
          | Option.none => ""))
    | _ => .error .attributeError
  | _ => .error .attributeError

/-- The writing loop over the shaped collection, threading the heap;
the heap reached so far is kept when an iteration raises. -/
def writeLoop (fuel : Nat) (fns : List HV) (trim : Bool) :
    Heap → List HV → Heap × Except PyErr (List (List String))
  | h, [] => (h, .ok [])
  | h, item :: rest =>
    match writeItem fuel fns trim h item with
    | .error e => (h, .error e)
    | .ok (h', row) =>
      match writeLoop fuel fns trim h' rest with
      | (h'', .error e) => (h'', .error e)
      | (h'', .ok rows) => (h'', .ok (row :: rows))

/-- Model of `writeheader` followed by the writing loop: the header row renders
the fieldnames before any row is processed. -/
def writeOut (fuel : Nat) (h : Heap) (fns : List HV) (items : List HV)
    (trim : Bool) : Heap × Except PyErr (Option (List (List String))) :=
  match writeLoop fuel fns trim h items with
  | (h', .error e) => (h', .error e)
  | (h', .ok rows) =>
      (h', .ok (some (fns.map (pyRender fuel h false) :: rows)))

/-- The flat-mapping branch's row construction (lines 344–354): each
subsequent key/value pair allocates a fresh two-entry dict
`{headers[0]: k, headers[1]: v}`. -/
def allocRows (hdr0 hdr1 : HV) : Heap → List (HV × HV) → Heap × List HV
  | h, [] => (h, [])
  | h, kv :: rest =>
    let next := allocRows hdr0 hdr1
      (h ++ [Obj.dict [(hdr0, kv.1), (hdr1, kv.2)]]) rest
    (next.1, HV.ref h.length :: next.2)

/-- Model of `export_csv_data_to_disk` (source lines 270–370) on the explicit
heap: the falsy early return, the deep copy of line 330, the shape
dispatch of lines 332–357 (reading through references; note line 357
reads `data[0]` from the *original* structure), then the writing loop
with its optional in-place trim.  A `deepcopy` returning nothing (fuel
exhaustion or a dangling reference — neither arises for well-formed
acyclic data) is reported as an error with the heap untouched. -/
def export_csv_data_to_disk (fuel : Nat) (h : Heap) (data : HV)
    (headers : Option (List HV)) (trim_long_strings : Bool) :
    Heap × Except PyErr (Option (List (List String))) :=
  if isFalsy h data then (h, .ok Option.none)
  else
    match deepcopy fuel h data with
    | Option.none => (h, .error .typeError)
    | some (h1, root) =>
      match headers with
      | some fns =>
        match root with
        | .ref a =>
          match h1[a]? with
          | some (.dict kvs) =>
              writeOut fuel h1 fns (kvs.map (fun kv => kv.1)) trim_long_strings
          | some (.list xs) => writeOut fuel h1 fns xs trim_long_strings
          | Option.none => (h1, .error .typeError)
        | .str s =>
            writeOut fuel h1 fns (s.data.map (fun c => HV.str (String.mk [c])))
              trim_long_strings
        | _ => (h1, .error .typeError)
      | Option.none =>
        match root with
        | .ref a =>
          match h1[a]? with
          | some (.dict kvs) =>
            match kvs with
            | [] => (h1, .error .indexError)
            | (k0, v0) :: rest =>
              match v0 with
              | .ref a0 =>
                match h1[a0]? with
                | some (.dict nkvs) =>
                    writeOut fuel h1 (nkvs.map (fun kv => kv.1))
                      (((k0, v0) :: rest).map (fun kv => kv.2))
                      trim_long_strings
                | _ =>
                    writeOut fuel (allocRows k0 v0 h1 rest).1 [k0, v0]
                      (allocRows k0 v0 h1 rest).2 trim_long_strings
              | _ =>
                  writeOut fuel (allocRows k0 v0 h1 rest).1 [k0, v0]
                    (allocRows k0 v0 h1 rest).2 trim_long_strings
          | some (.list xs) =>
            match data with
            | .ref aOrig =>
              match h1[aOrig]? with
              | some (.list xsOrig) =>
                match xsOrig with
                | [] => (h1, .error .indexError)
                | x0 :: _ =>
                  match x0 with
                  | .ref a00 =>
                    match h1[a00]? with
                    | some (.dict kvs0) =>
                        writeOut fuel h1 (kvs0.map (fun kv => kv.1)) xs
                          trim_long_strings
                    | some (.list xs00) =>
                        writeOut fuel h1 xs00 xs trim_long_strings
                    | Option.none => (h1, .error .typeError)
                  | .str s0 =>
                      writeOut fuel h1
                        (s0.data.map (fun c => HV.str (String.mk [c]))) xs
                        trim_long_strings
                  | _ => (h1, .error .typeError)
              | _ => (h1, .error .typeError)
            | _ => (h1, .error .typeError)
          | Option.none => (h1, .error .typeError)
        | _ => (h1, .error .typeError)

end Mut

namespace Mut

/-- States that every reference in this value points at or beyond address `n`. -/
def refGe (n : Nat) : HV → Prop
  | .ref a => n ≤ a
  | _ => True

/-- States that every reference stored in this object points at or beyond `n`. -/
def objRefGe (n : Nat) : Obj → Prop
  | .dict kvs => ∀ kv ∈ kvs, refGe n kv.1 ∧ refGe n kv.2
  | .list xs => ∀ x ∈ xs, refGe n x

theorem refGe_mono {m n : Nat} (hmn : m ≤ n) (v : HV) (hv : refGe n v) :
    refGe m v := by
  cases v with
  | ref a => exact Nat.le_trans hmn hv
  | str s => exact True.intro
  | bool b => exact True.intro
  | none => exact True.intro

theorem objRefGe_mono {m n : Nat} (hmn : m ≤ n) (o : Obj)
    (ho : objRefGe n o) : objRefGe m o := by
  cases o with
  | dict kvs =>
      intro kv hkv
      exact ⟨refGe_mono hmn _ (ho kv hkv).1, refGe_mono hmn _ (ho kv hkv).2⟩
  | list xs =>
      intro x hx
      exact refGe_mono hmn _ (ho x hx)

theorem take_set_of_le {α : Type} (l : List α) (i : Nat) (x : α) (n : Nat)
    (hni : n ≤ i) : (l.set i x).take n = l.take n := by
  induction l generalizing i n with
  | nil => simp
  | cons a l ih =>
      cases i with
      | zero =>
          have hn0 : n = 0 := Nat.le_zero.1 hni
          subst hn0
          simp
      | succ i =>
          cases n with
          | zero => simp
          | succ n =>
              show a :: (l.set i x).take n = a :: l.take n
              rw [ih i n (Nat.le_of_succ_le_succ hni)]

theorem objRefGe_of_getElem {h ext : Heap} {a : Nat} {o : Obj}
    (hget : (h ++ ext)[a]? = some o) (ha : h.length ≤ a)
    (hext : ∀ o' ∈ ext, objRefGe h.length o') : objRefGe h.length o := by
  rw [List.getElem?_append_right ha] at hget
  exact hext o (List.getElem?_mem hget)

theorem deepcopy_spec (fuel : Nat) :
    (∀ h v h' v', deepcopy fuel h v = some (h', v') →
      (∃ ext, h' = h ++ ext ∧ ∀ o ∈ ext, objRefGe h.length o) ∧
        refGe h.length v') ∧
    (∀ h l h' l', deepcopyPairs fuel h l = some (h', l') →
      (∃ ext, h' = h ++ ext ∧ ∀ o ∈ ext, objRefGe h.length o) ∧
        ∀ kv ∈ l', refGe h.length kv.1 ∧ refGe h.length kv.2) ∧
    (∀ h l h' l', deepcopyElems fuel h l = some (h', l') →
      (∃ ext, h' = h ++ ext ∧ ∀ o ∈ ext, objRefGe h.length o) ∧
        ∀ x ∈ l', refGe h.length x) := by
  induction fuel with
  | zero =>
      refine ⟨fun h v h' v' hc => ?_, fun h l h' l' hc => ?_,
        fun h l h' l' hc => ?_⟩
      · cases v with
        | str s =>
            simp only [deepcopy, Option.some.injEq, Prod.mk.injEq] at hc
            obtain ⟨rfl, rfl⟩ := hc
            exact ⟨⟨[], by simp, by simp⟩, True.intro⟩
        | bool b =>
            simp only [deepcopy, Option.some.injEq, Prod.mk.injEq] at hc
            obtain ⟨rfl, rfl⟩ := hc
            exact ⟨⟨[], by simp, by simp⟩, True.intro⟩
        | none =>
            simp only [deepcopy, Option.some.injEq, Prod.mk.injEq] at hc
            obtain ⟨rfl, rfl⟩ := hc
            exact ⟨⟨[], by simp, by simp⟩, True.intro⟩
        | ref a => simp [deepcopy] at hc
      · cases l with
        | nil =>
            simp only [deepcopyPairs, Option.some.injEq, Prod.mk.injEq] at hc
            obtain ⟨rfl, rfl⟩ := hc
            exact ⟨⟨[], by simp, by simp⟩, by simp⟩
        | cons kv rest => simp [deepcopyPairs] at hc
      · cases l with
        | nil =>
            simp only [deepcopyElems, Option.some.injEq, Prod.mk.injEq] at hc
            obtain ⟨rfl, rfl⟩ := hc
            exact ⟨⟨[], by simp, by simp⟩, by simp⟩
        | cons x rest => simp [deepcopyElems] at hc
  | succ fuel ih =>
      obtain ⟨ihD, ihP, ihE⟩ := ih
      refine ⟨fun h v h' v' hc => ?_, fun h l h' l' hc => ?_,
        fun h l h' l' hc => ?_⟩
      · cases v with
        | str s =>
            simp only [deepcopy, Option.some.injEq, Prod.mk.injEq] at hc
            obtain ⟨rfl, rfl⟩ := hc
            exact ⟨⟨[], by simp, by simp⟩, True.intro⟩
        | bool b =>
            simp only [deepcopy, Option.some.injEq, Prod.mk.injEq] at hc
            obtain ⟨rfl, rfl⟩ := hc
            exact ⟨⟨[], by simp, by simp⟩, True.intro⟩
        | none =>
            simp only [deepcopy, Option.some.injEq, Prod.mk.injEq] at hc
            obtain ⟨rfl, rfl⟩ := hc
            exact ⟨⟨[], by simp, by simp⟩, True.intro⟩
        | ref a =>
            simp only [deepcopy] at hc
            cases hobj : h[a]? with
            | none => rw [hobj] at hc; simp at hc
            | some o =>
                rw [hobj] at hc
                cases o with
                | dict kvs =>
                    cases hp : deepcopyPairs fuel h kvs with
                    | none => simp [hp] at hc
                    | some pr =>
                        obtain ⟨hp1, kvs'⟩ := pr
                        simp only [hp, Option.some.injEq,
                          Prod.mk.injEq] at hc
                        obtain ⟨rfl, rfl⟩ := hc
                        obtain ⟨⟨ext, rfl, hobjs⟩, hkvs'⟩ :=
                          ihP h kvs _ _ hp
                        refine ⟨⟨ext ++ [.dict kvs'],
                          by rw [List.append_assoc], ?_⟩, ?_⟩
                        · intro o ho
                          rcases List.mem_append.1 ho with ho | ho
                          · exact hobjs o ho
                          · rw [List.mem_singleton.1 ho]
                            exact hkvs'
                        · show h.length ≤ (h ++ ext).length
                          simp
                | list xs =>
                    cases hp : deepcopyElems fuel h xs with
                    | none => simp [hp] at hc
                    | some pr =>
                        obtain ⟨hp1, xs'⟩ := pr
                        simp only [hp, Option.some.injEq,
                          Prod.mk.injEq] at hc
                        obtain ⟨rfl, rfl⟩ := hc
                        obtain ⟨⟨ext, rfl, hobjs⟩, hxs'⟩ := ihE h xs _ _ hp
                        refine ⟨⟨ext ++ [.list xs'],
                          by rw [List.append_assoc], ?_⟩, ?_⟩
                        · intro o ho
                          rcases List.mem_append.1 ho with ho | ho
                          · exact hobjs o ho
                          · rw [List.mem_singleton.1 ho]
                            exact hxs'
                        · show h.length ≤ (h ++ ext).length
                          simp
      · cases l with
        | nil =>
            simp only [deepcopyPairs, Option.some.injEq, Prod.mk.injEq] at hc
            obtain ⟨rfl, rfl⟩ := hc
            exact ⟨⟨[], by simp, by simp⟩, by simp⟩
        | cons kv rest =>
            simp only [deepcopyPairs] at hc
            cases h1c : deepcopy fuel h kv.1 with
            | none => simp [h1c] at hc
            | some pr1 =>
                obtain ⟨h1, k'⟩ := pr1
                simp only [h1c] at hc
                cases h2c : deepcopy fuel h1 kv.2 with
                | none => simp [h2c] at hc
                | some pr2 =>
                    obtain ⟨h2, v'⟩ := pr2
                    simp only [h2c] at hc
                    cases h3c : deepcopyPairs fuel h2 rest with
                    | none => simp [h3c] at hc
                    | some pr3 =>
                        obtain ⟨h3, rest'⟩ := pr3
                        simp only [h3c, Option.some.injEq,
                          Prod.mk.injEq] at hc
                        obtain ⟨rfl, rfl⟩ := hc
                        obtain ⟨⟨e1, rfl, ho1⟩, hk'⟩ := ihD h kv.1 _ _ h1c
                        obtain ⟨⟨e2, rfl, ho2⟩, hv'⟩ := ihD _ kv.2 _ _ h2c
                        obtain ⟨⟨e3, rfl, ho3⟩, hrest'⟩ := ihP _ rest _ _ h3c
                        have hlen1 : h.length ≤ (h ++ e1).length := by simp
                        have hlen2 : h.length ≤ ((h ++ e1) ++ e2).length := by
                          simp
                        refine ⟨⟨e1 ++ (e2 ++ e3),
                          by rw [List.append_assoc, List.append_assoc], ?_⟩,
                          ?_⟩
                        · intro o ho
                          rcases List.mem_append.1 ho with ho | ho
                          · exact ho1 o ho
                          · rcases List.mem_append.1 ho with ho | ho
                            · exact objRefGe_mono hlen1 o (ho2 o ho)
                            · exact objRefGe_mono hlen2 o (ho3 o ho)
                        · intro p hp
                          rcases List.mem_cons.1 hp with hp | hp
                          · rw [hp]
                            exact ⟨hk', refGe_mono hlen1 _ hv'⟩
                          · exact ⟨refGe_mono hlen2 _ (hrest' p hp).1,
                              refGe_mono hlen2 _ (hrest' p hp).2⟩
      · cases l with
        | nil =>
            simp only [deepcopyElems, Option.some.injEq, Prod.mk.injEq] at hc
            obtain ⟨rfl, rfl⟩ := hc
            exact ⟨⟨[], by simp, by simp⟩, by simp⟩
        | cons x rest =>
            simp only [deepcopyElems] at hc
            cases h1c : deepcopy fuel h x with
            | none => simp [h1c] at hc
            | some pr1 =>
                obtain ⟨h1, x'⟩ := pr1
                simp only [h1c] at hc
                cases h2c : deepcopyElems fuel h1 rest with
                | none => simp [h2c] at hc
                | some pr2 =>
                    obtain ⟨h2, rest'⟩ := pr2
                    simp only [h2c, Option.some.injEq,
                      Prod.mk.injEq] at hc
                    obtain ⟨rfl, rfl⟩ := hc
                    obtain ⟨⟨e1, rfl, ho1⟩, hx'⟩ := ihD h x _ _ h1c
                    obtain ⟨⟨e2, rfl, ho2⟩, hrest'⟩ := ihE _ rest _ _ h2c
                    have hlen1 : h.length ≤ (h ++ e1).length := by simp
                    refine ⟨⟨e1 ++ e2, by rw [List.append_assoc], ?_⟩, ?_⟩
                    · intro o ho
                      rcases List.mem_append.1 ho with ho | ho
                      · exact ho1 o ho
                      · exact objRefGe_mono hlen1 o (ho2 o ho)
                    · intro y hy
                      rcases List.mem_cons.1 hy with hy | hy
                      · rw [hy]
                        exact hx'
                      · exact refGe_mono hlen1 _ (hrest' y hy)

theorem allocRows_spec (hdr0 hdr1 : HV) (l : List (HV × HV)) :
    ∀ h : Heap,
      (∃ ext, (allocRows hdr0 hdr1 h l).1 = h ++ ext) ∧
      ∀ i ∈ (allocRows hdr0 hdr1 h l).2, refGe h.length i := by
  induction l with
  | nil =>
      intro h
      exact ⟨⟨[], by simp [allocRows]⟩, by simp [allocRows]⟩
  | cons kv rest ih =>
      intro h
      obtain ⟨⟨ext, hext⟩, hitems⟩ :=
        ih (h ++ [Obj.dict [(hdr0, kv.1), (hdr1, kv.2)]])
      have hlen : h.length ≤
          (h ++ [Obj.dict [(hdr0, kv.1), (hdr1, kv.2)]]).length := by simp
      constructor
      · refine ⟨[Obj.dict [(hdr0, kv.1), (hdr1, kv.2)]] ++ ext, ?_⟩
        show (allocRows hdr0 hdr1
          (h ++ [Obj.dict [(hdr0, kv.1), (hdr1, kv.2)]]) rest).1 = _
        rw [hext, List.append_assoc]
      · intro i hi
        replace hi : i ∈ HV.ref h.length :: (allocRows hdr0 hdr1
          (h ++ [Obj.dict [(hdr0, kv.1), (hdr1, kv.2)]]) rest).2 := hi
        rcases List.mem_cons.1 hi with hi | hi
        · rw [hi]
          exact Nat.le_refl h.length
        · exact refGe_mono hlen i (hitems i hi)

theorem writeItem_frame (fuel : Nat) (fns : List HV) (trim : Bool)
    (h : Heap) (item : HV) (n : Nat) (hit : refGe n item) {h' : Heap}
    {row : List String}
    (hc : writeItem fuel fns trim h item = .ok (h', row)) :
    h'.take n = h.take n ∧ h'.length = h.length := by
  cases item with
  | ref a =>
      have hna : n ≤ a := hit
      simp only [writeItem] at hc
      cases hobj : h[a]? with
      | none => rw [hobj] at hc; simp at hc
      | some o =>
          cases o with
          | list xs => simp [hobj] at hc
          | dict kvs =>
              simp only [hobj, Except.ok.injEq, Prod.mk.injEq] at hc
              obtain ⟨hc1, _⟩ := hc
              subst hc1
              cases trim with
              | true =>
                  constructor
                  · exact take_set_of_le h a _ n hna
                  · exact List.length_set h a _
              | false => exact ⟨rfl, rfl⟩
  | str s => simp [writeItem] at hc
  | bool b => simp [writeItem] at hc
  | none => simp [writeItem] at hc

theorem writeLoop_frame (fuel : Nat) (fns : List HV) (trim : Bool)
    (items : List HV) (n : Nat) :
    ∀ h : Heap, (∀ i ∈ items, refGe n i) →
      ((writeLoop fuel fns trim h items).1).take n = h.take n := by
  induction items with
  | nil =>
      intro h _
      rfl
  | cons item rest ih =>
      intro h hall
      show ((match writeItem fuel fns trim h item with
        | .error e => (h, Except.error e)
        | .ok (h1, row) =>
          match writeLoop fuel fns trim h1 rest with
          | (h2, .error e) => (h2, Except.error e)
          | (h2, .ok rows) => (h2, Except.ok (row :: rows))).1).take n =
        h.take n
      cases hwi : writeItem fuel fns trim h item with
      | error e => rfl
      | ok pr =>
          obtain ⟨h1, row⟩ := pr
          have hfr := writeItem_frame fuel fns trim h item n
            (hall item (List.mem_cons_self item rest)) hwi
          have hrec := ih h1 (fun i hi =>
            hall i (List.mem_cons_of_mem item hi))
          show ((match writeLoop fuel fns trim h1 rest with
            | (h2, Except.error e) => (h2, Except.error e)
            | (h2, Except.ok rows) =>
                (h2, Except.ok (row :: rows))).1).take n = h.take n
          cases hrl : writeLoop fuel fns trim h1 rest with
          | mk h2 res =>
              rw [hrl] at hrec
              have hrec2 : h2.take n = h1.take n := hrec
              cases res with
              | error e => exact hrec2.trans hfr.1
              | ok rows => exact hrec2.trans hfr.1

theorem writeOut_frame (fuel : Nat) (h : Heap) (fns : List HV)
    (items : List HV) (trim : Bool) (n : Nat)
    (hall : ∀ i ∈ items, refGe n i) :
    ((writeOut fuel h fns items trim).1).take n = h.take n := by
  have hfr := writeLoop_frame fuel fns trim items n h hall
  unfold writeOut
  cases hrl : writeLoop fuel fns trim h items with
  | mk h1 res =>
      rw [hrl] at hfr
      have hfr2 : h1.take n = h.take n := hfr
      cases res with
      | error e => exact hfr2
      | ok rows => exact hfr2

/-- C9: `export_csv_data_to_disk` deep-copies the data (line 330) before
any mutation, so the caller's original structure — every heap object
that existed before the call, hence every nested mapping and value
reachable from the caller's data — is unchanged after the call,
whatever the shape dispatch takes and whether or not
`trim_long_strings` is set: the pre-call heap is preserved verbatim as
a prefix of the post-call heap, because the trim pass's in-place writes
land only on addresses freshly allocated by the deep copy or by the
flat-branch row construction. -/
theorem C9_export_preserves_caller_heap (fuel : Nat) (h : Heap)
    (data : HV) (headers : Option (List HV)) (trim : Bool) :
    ((export_csv_data_to_disk fuel h data headers trim).1).take h.length
      = h := by
  by_cases hf : isFalsy h data = true
  · unfold export_csv_data_to_disk
    rw [if_pos hf]
    exact List.take_length h
  · unfold export_csv_data_to_disk
    rw [if_neg hf]
    cases hdc : deepcopy fuel h data with
    | none => exact List.take_length h
    | some pr =>
        obtain ⟨h1, root⟩ := pr
        obtain ⟨⟨ext, hext, hobjs⟩, hroot⟩ :=
          (deepcopy_spec fuel).1 h data h1 root hdc
        have h1take : h1.take h.length = h := by
          rw [hext, List.take_append_of_le_length (Nat.le_refl h.length),
            List.take_length]
        have h1len : h.length ≤ h1.length := by
          rw [hext]
          simp
        cases headers with
        | some fns =>
            cases root with
            | ref a =>
                have ha : h.length ≤ a := hroot
                simp only []
                cases hga : h1[a]? with
                | none => exact h1take
                | some o =>
                    have hao : objRefGe h.length o := by
                      rw [hext] at hga
                      exact objRefGe_of_getElem hga ha hobjs
                    cases o with
                    | dict kvs =>
                        refine (writeOut_frame fuel h1 fns
                          (kvs.map (fun kv => kv.1)) trim h.length
                          ?_).trans h1take
                        intro i hi
                        obtain ⟨kv, hkv, rfl⟩ := List.mem_map.1 hi
                        exact (hao kv hkv).1
                    | list xs =>
                        refine (writeOut_frame fuel h1 fns xs trim h.length
                          ?_).trans h1take
                        intro i hi
                        exact hao i hi
            | str s =>
                refine (writeOut_frame fuel h1 fns
                  (s.data.map (fun c => HV.str (String.mk [c]))) trim
                  h.length ?_).trans h1take
                intro i hi
                obtain ⟨c, _, rfl⟩ := List.mem_map.1 hi
                exact True.intro
            | bool b => exact h1take
            | none => exact h1take
        | none =>
            cases root with
            | ref a =>
                have ha : h.length ≤ a := hroot
                simp only []
                cases hga : h1[a]? with
                | none => exact h1take
                | some o =>
                    have hao : objRefGe h.length o := by
                      rw [hext] at hga
                      exact objRefGe_of_getElem hga ha hobjs
                    cases o with
                    | dict kvs =>
                        cases kvs with
                        | nil => exact h1take
                        | cons kv0 rest =>
                            obtain ⟨k0, v0⟩ := kv0
                            have hflat : ((writeOut fuel
                                (allocRows k0 v0 h1 rest).1 [k0, v0]
                                (allocRows k0 v0 h1 rest).2 trim).1).take
                                  h.length = h := by
                              obtain ⟨⟨ext2, hext2⟩, hitems2⟩ :=
                                allocRows_spec k0 v0 rest h1
                              have h2take : ((allocRows k0 v0 h1
                                  rest).1).take h.length = h := by
                                rw [hext2,
                                  List.take_append_of_le_length h1len,
                                  h1take]
                              refine (writeOut_frame fuel _ [k0, v0] _
                                trim h.length ?_).trans h2take
                              intro i hi
                              exact refGe_mono h1len i (hitems2 i hi)
                            cases v0 with
                            | ref a0 =>
                                simp only []
                                cases hga0 : h1[a0]? with
                                | none => exact hflat
                                | some o0 =>
                                    cases o0 with
                                    | dict nkvs =>
                                        refine (writeOut_frame fuel h1
                                          (nkvs.map (fun kv => kv.1))
                                          (((k0, HV.ref a0) :: rest).map
                                            (fun kv => kv.2)) trim
                                          h.length ?_).trans h1take
                                        intro i hi
                                        obtain ⟨kv, hkv, rfl⟩ :=
                                          List.mem_map.1 hi
                                        exact (hao kv hkv).2
                                    | list xs0 => exact hflat
                            | str s0 => exact hflat
                            | bool b0 => exact hflat
                            | none => exact hflat
                    | list xs =>
                        have hxs : ∀ i ∈ xs, refGe h.length i :=
                          fun i hi => hao i hi
                        cases data with
                        | ref aOrig =>
                            simp only []
                            cases hgo : h1[aOrig]? with
                            | none => exact h1take
                            | some oOrig =>
                                cases oOrig with
                                | dict kvsO => exact h1take
                                | list xsO =>
                                    cases xsO with
                                    | nil => exact h1take
                                    | cons x0 xsr =>
                                        cases x0 with
                                        | ref a00 =>
                                            simp only []
                                            cases hg00 : h1[a00]? with
                                            | none => exact h1take
                                            | some o00 =>
                                                cases o00 with
                                                | dict kvs0 =>
                                                    exact (writeOut_frame
                                                      fuel h1
                                                      (kvs0.map
                                                        (fun kv => kv.1))
                                                      xs trim h.length
                                                      hxs).trans h1take
                                                | list xs00 =>
                                                    exact (writeOut_frame
                                                      fuel h1 xs00 xs trim
                                                      h.length hxs).trans
                                                      h1take
                                        | str s0 =>
                                            exact (writeOut_frame fuel h1
                                              (s0.data.map (fun c =>
                                                HV.str (String.mk [c])))
                                              xs trim h.length hxs).trans
                                              h1take
                                        | bool b0 => exact h1take
                                        | none => exact h1take
                        | str s => exact h1take
                        | bool b => exact h1take
                        | none => exact h1take
            | str s => exact h1take
            | bool b => exact h1take
            | none => exact h1take

end Mut
